import Mathlib

/-!
Shallow embedding of `tidal_analysis.py` (UK Tidal Analysis Tool).

Conventions of the embedding:
* A file is a `List String` of its lines (newline terminators stripped; the
  regex pattern is prefix-anchored so terminators are immaterial).
* A timestamp is the number of seconds since 0001-01-01 00:00:00 in the
  proleptic Gregorian calendar (`Nat`); sea levels are exact rationals
  (`ℚ`), with `Option ℚ` for the pandas NaN / missing marker.
* Python exceptions that propagate out of a function are modelled with
  `Except String`; the string names the Python exception.
* pandas/NumPy/SciPy/matplotlib calls are modelled from their documented
  behaviour, noted at each definition.
-/

/-- Observation: one row of the parsed dataframe, a timestamp (seconds since
0001-01-01 00:00:00, proleptic Gregorian) and a sea level that is either a
rational number or the missing marker (NaN in the source). -/
structure Obs where
  time : Nat
  level : Option ℚ
deriving DecidableEq, Repr

namespace Tidal

/-- Python regex `\s` on the ASCII range (the data files are ASCII). -/
def isWs (c : Char) : Bool :=
  c == ' ' || c == '\t' || c == '\n' || c == '\x0d' || c == '\x0b' || c == '\x0c'

/-- Python regex `\d` on the ASCII range. -/
def isDigitCh (c : Char) : Bool :=
  c.isDigit

/-- The character class `[\d.\-NTM]` of the sea-level / residual fields. -/
def isFieldCh (c : Char) : Bool :=
  c.isDigit || c == '.' || c == '-' || c == 'N' || c == 'T' || c == 'M'

/-- Match one or more characters satisfying `p` (regex `p+`), maximal munch;
returns the matched characters and the rest.  Every `+`/`*` class in the
source pattern is disjoint from the character that follows it, so maximal
munch is equivalent to the backtracking regex semantics. -/
def matchPlus (p : Char → Bool) (cs : List Char) : Option (List Char × List Char) :=
  match cs.span p with
  | (m, rest) => if m.isEmpty then none else some (m, rest)

/-- Match exactly `n` characters satisfying `p` (regex `p{n}`). -/
def matchExact (p : Char → Bool) : Nat → List Char → Option (List Char × List Char)
  | 0, cs => some ([], cs)
  | _ + 1, [] => none
  | n + 1, c :: cs =>
    if p c then
      match matchExact p n cs with
      | some (m, rest) => some (c :: m, rest)
      | none => none
    else none

/-- Match one literal character. -/
def matchLit (c : Char) : List Char → Option (List Char)
  | [] => none
  | d :: cs => if d == c then some cs else none

/-- Groups captured by the pattern
`\s*\d+\)\s+(\d{4}/\d{2}/\d{2})\s+(\d{2}:\d{2}:\d{2})\s+([\d.\-NTM]+)\s+([\d.\-NTM]+)`:
the date digits (y, m, d), the time digits (h, mi, s) and the two field
strings (only the first, the sea level, is retained by the caller). -/
structure Groups where
  yr : Nat
  mo : Nat
  dy : Nat
  hh : Nat
  mi : Nat
  ss : Nat
  sealevel : List Char
  residual : List Char
deriving DecidableEq, Repr

/-- Numeric value of a digit string (most significant first). -/
def digitsToNat (ds : List Char) : Nat :=
  ds.foldl (fun acc c => 10 * acc + (c.toNat - 48)) 0

/-- Match the prefix `\s*\d+\)\s+` of the pattern (record id). -/
def matchHead (cs : List Char) : Option (List Char) :=
  Option.bind (matchPlus isDigitCh (cs.span isWs).2) fun p1 =>
  Option.bind (matchLit ')' p1.2) fun r1 =>
  Option.map (fun p2 => p2.2) (matchPlus isWs r1)

/-- Match `(\d{4}/\d{2}/\d{2})`: the date group, as (y, m, d, rest). -/
def matchDate (cs : List Char) : Option (Nat × Nat × Nat × List Char) :=
  Option.bind (matchExact isDigitCh 4 cs) fun p1 =>
  Option.bind (matchLit '/' p1.2) fun r1 =>
  Option.bind (matchExact isDigitCh 2 r1) fun p2 =>
  Option.bind (matchLit '/' p2.2) fun r2 =>
  Option.map (fun p3 => (digitsToNat p1.1, digitsToNat p2.1, digitsToNat p3.1, p3.2))
    (matchExact isDigitCh 2 r2)

/-- Match `(\d{2}:\d{2}:\d{2})`: the time group, as (h, mi, s, rest). -/
def matchTime (cs : List Char) : Option (Nat × Nat × Nat × List Char) :=
  Option.bind (matchExact isDigitCh 2 cs) fun p1 =>
  Option.bind (matchLit ':' p1.2) fun r1 =>
  Option.bind (matchExact isDigitCh 2 r1) fun p2 =>
  Option.bind (matchLit ':' p2.2) fun r2 =>
  Option.map (fun p3 => (digitsToNat p1.1, digitsToNat p2.1, digitsToNat p3.1, p3.2))
    (matchExact isDigitCh 2 r2)

/-- The line pattern of `read_tidal_data` (`re.compile(...)`, used with
`pattern.match(line)`, i.e. anchored at the start only; trailing characters
after the last group are allowed). -/
def matchLine (line : String) : Option Groups :=
  Option.bind (matchHead line.data) fun c1 =>
  Option.bind (matchDate c1) fun d =>
  Option.bind (matchPlus isWs d.2.2.2) fun w1 =>
  Option.bind (matchTime w1.2) fun t =>
  Option.bind (matchPlus isWs t.2.2.2) fun w2 =>
  Option.bind (matchPlus isFieldCh w2.2) fun f3 =>
  Option.bind (matchPlus isWs f3.2) fun w3 =>
  Option.map (fun f4 =>
      { yr := d.1, mo := d.2.1, dy := d.2.2.1,
        hh := t.1, mi := t.2.1, ss := t.2.2.1,
        sealevel := f3.1, residual := f4.1 })
    (matchPlus isFieldCh w3.2)

/-- The test `re.search(r'[NTM]$', sealevel_str)`: does the field end in one
of the flag characters N, T, M? -/
def endsInFlag (cs : List Char) : Bool :=
  match cs.getLast? with
  | some c => c == 'N' || c == 'T' || c == 'M'
  | none => false

/-- Python `float(s)` on a string over the characters `[\d.\-NTM]` (all the
sea-level field can contain): an optional leading minus, then digits with at
most one decimal point and at least one digit; anything else raises
ValueError (`none`).  Exponents, whitespace, underscores, inf/nan spellings
cannot occur inside this character class. -/
def pyFloat (cs : List Char) : Option ℚ :=
  let body := if cs.head? == some '-' then cs.tail else cs
  let neg := cs.head? == some '-'
  if body.all (fun c => c.isDigit || c == '.')
      && body.count '.' ≤ 1
      && body.any Char.isDigit then
    let intder := body.takeWhile (fun c => c != '.')
    let frac := (body.dropWhile (fun c => c != '.')).tail
    let mag : ℚ := (digitsToNat intder : ℚ) + (digitsToNat frac : ℚ) / (10 : ℚ) ^ frac.length
    some (if neg then -mag else mag)
  else
    none

/-- Number of leap years in 1..n (proleptic Gregorian). -/
def leapsUpto (n : Nat) : Nat :=
  n / 4 - n / 100 + n / 400

/-- Is year y a leap year? -/
def isLeap (y : Nat) : Bool :=
  (y % 4 == 0 && y % 100 != 0) || y % 400 == 0

/-- Days in the months before month m (1-based) of a year with leap flag. -/
def daysBeforeMonth (m : Nat) (leap : Bool) : Nat :=
  let lens : List Nat := [31, if leap then 29 else 28, 31, 30, 31, 30, 31, 31, 30, 31, 30]
  (lens.take (m - 1)).sum

/-- Day count of a civil date, days since 0001-01-01 (day 0), proleptic
Gregorian, defined for y ≥ 1 with a valid month/day. -/
def daysFromCivil (y m d : Nat) : Nat :=
  365 * (y - 1) + leapsUpto (y - 1) + daysBeforeMonth m (isLeap y) + (d - 1)

/-- Length of month m in year y. -/
def daysInMonth (y m : Nat) : Nat :=
  daysBeforeMonth (m + 1) (isLeap y) - daysBeforeMonth m (isLeap y)

/-- Validity as checked by Python `datetime` (which `pd.to_datetime` with an
explicit format reduces to): year 1..9999, month 1..12, day 1..monthlen,
hour ≤ 23, minute ≤ 59, second ≤ 59. -/
def validGroups (g : Groups) : Bool :=
  1 ≤ g.yr && g.yr ≤ 9999 && 1 ≤ g.mo && g.mo ≤ 12
    && 1 ≤ g.dy && g.dy ≤ daysInMonth g.yr g.mo
    && g.hh ≤ 23 && g.mi ≤ 59 && g.ss ≤ 59

/-- Timestamp (seconds since 0001-01-01 00:00:00) of the matched groups. -/
def tsOfGroups (g : Groups) : Nat :=
  daysFromCivil g.yr g.mo g.dy * 86400 + g.hh * 3600 + g.mi * 60 + g.ss

/-- Seconds from 0001-01-01 00:00:00 to the Unix epoch 1970-01-01 00:00:00. -/
def epochCE : Nat :=
  daysFromCivil 1970 1 1 * 86400

/-- A `pd.Timestamp` stores nanoseconds since the Unix epoch in a signed
64-bit integer (the minimum value is reserved for NaT), so
`pd.to_datetime` raises OutOfBoundsDatetime outside this range. -/
def inPandasBounds (t : Nat) : Bool :=
  -(2 ^ 63) + 1 ≤ ((t : ℤ) - epochCE) * 1000000000
    && ((t : ℤ) - epochCE) * 1000000000 ≤ 2 ^ 63 - 1

/-- Processing of one data line in the loop of `read_tidal_data`:
`.ok none` when the pattern does not match (the line is silently skipped),
`.error` when `float(...)` or `pd.to_datetime(...)` raises (the broad
`except` clause prints and re-raises), `.ok (some obs)` otherwise. -/
def processLine (line : String) : Except String (Option Obs) :=
  match matchLine line with
  | none => .ok none
  | some g =>
    -- sea_level = None if re.search(r'[NTM]$', s) else float(s)
    match (if endsInFlag g.sealevel then some none
           else (pyFloat g.sealevel).map some) with
    | none => .error "ValueError"
    | some lvl =>
      -- dt = pd.to_datetime(date_str, format=...)
      if validGroups g && inPandasBounds (tsOfGroups g) then
        .ok (some { time := tsOfGroups g, level := lvl })
      else
        .error "DateParseError"

/-- Loop over the data lines, collecting observations in file order; the
first raising line aborts the whole read. -/
def processLines : List String → Except String (List Obs)
  | [] => .ok []
  | l :: ls =>
    match processLine l with
    | .error e => .error e
    | .ok none => processLines ls
    | .ok (some o) =>
      match processLines ls with
      | .error e => .error e
      | .ok os => .ok (o :: os)

/-- Model of `read_tidal_data` on the contents of an already-opened file:
eleven header lines are skipped with `next(file)`; when the file has fewer
than eleven lines, `next` raises StopIteration, which the broad `except`
clause re-raises, so the whole read fails.  The remaining lines are parsed
in order; the resulting rows keep file order. -/
def read_tidal_data (lines : List String) : Except String (List Obs) :=
  if lines.length < 11 then .error "StopIteration"
  else processLines (lines.drop 11)

/-- Ordering of rows by their time index. -/
def timeLE (a b : Obs) : Prop := a.time ≤ b.time

instance : DecidableRel timeLE := fun a b => Nat.decLe a.time b.time

/-- Model of `DataFrame.sort_index()`: the rows reordered into non-decreasing
index order.  The source calls it with the default `kind='quicksort'`,
which pandas documents as NOT stable, so the program only guarantees the
order and the multiset of the result, not the relative order of equal
timestamps; the general theorems about the assembler below state only
those two tie-insensitive properties, which hold of any sort.  An
insertion sort stands in as the executable representative.  Its tie order
(input order) is relied on only in concrete evaluations where pandas'
behaviour is pinned: `sort_index` returns a frame with an
already-monotonic index unchanged, keeping ties in input order there. -/
def sortByTime (l : List Obs) : List Obs := List.insertionSort timeLE l

/-- Strict lexicographic (code-point) comparison of two character lists,
the order Python string comparison uses. -/
def charListLT : List Char → List Char → Bool
  | [], [] => false
  | [], _ :: _ => true
  | _ :: _, [] => false
  | a :: as, b :: bs => if a < b then true else if b < a then false else charListLT as bs

/-- Lexicographic (code-point) order on file names, as Python `sorted` uses. -/
def nameLE (a b : String) : Prop := charListLT b.data a.data = false

instance : DecidableRel nameLE := fun a b => instDecidableEqBool (charListLT b.data a.data) false

/-- Model of `sorted(glob.glob(foldername + '/*.txt'))`: the folder entries
whose name ends in `.txt` (glob's `*` does not match a leading dot), in
lexicographic name order (Python `sorted` is stable; names in a folder are
distinct anyway). -/
def globSorted (folder : List (String × List String)) : List (String × List String) :=
  List.insertionSort (fun a b => nameLE a.1 b.1)
    (folder.filter (fun f => ".txt".data.isSuffixOf f.1.data && !(f.1.data.head? == some '.')))

/-- Parse each file in order, propagating the first error. -/
def readFrames : List (String × List String) → Except String (List (List Obs))
  | [] => .ok []
  | f :: fs =>
    match read_tidal_data f.2 with
    | .error e => .error e
    | .ok frame =>
      match readFrames fs with
      | .error e => .error e
      | .ok frames => .ok (frame :: frames)

/-- Model of `read_all_tidal_data`: list the `.txt` files of the folder in
name order, parse each with `read_tidal_data`, concatenate
(`pd.concat` raises ValueError on an empty list of frames, i.e. when the
folder has no matching file) and sort by the time index.  Any error
propagates (the `except` clause prints and re-raises). -/
def read_all_tidal_data (folder : List (String × List String)) : Except String (List Obs) :=
  match readFrames (globSorted folder) with
  | .error e => .error e
  | .ok frames =>
    if frames.isEmpty then .error "ValueError"
    else .ok (sortByTime frames.flatten)

/-- Inverse of `daysFromCivil`: the civil date of a day count (days since
0001-01-01), proleptic Gregorian, via the standard era decomposition
(days are first rebased to 0000-03-01 so that leap days fall at year end). -/
def civilFromDays (n : Nat) : Nat × Nat × Nat :=
  let z := n + 306
  let era := z / 146097
  let doe := z % 146097
  let yoe := (doe - doe / 1460 + doe / 36524 - doe / 146096) / 365
  let y := yoe + era * 400
  let doy := doe - (365 * yoe + yoe / 4 - yoe / 100)
  let mp := (5 * doy + 2) / 153
  let d := doy - (153 * mp + 2) / 5 + 1
  let m := if mp < 10 then mp + 3 else mp - 9
  (if m ≤ 2 then y + 1 else y, m, d)

/-- The `.year` accessor of a timestamp (`data.index.year` in pandas). -/
def yearOf (t : Nat) : Nat := (civilFromDays (t / 86400)).1

/-- The non-missing sea levels of a frame, in order (`dropna` view of the
column). -/
def presentVals (l : List Obs) : List ℚ := l.filterMap (·.level)

/-- Model of `frame['Sea Level'] -= frame['Sea Level'].mean()`: the pandas
mean skips NaN (sum of the present values over their count), and the
subtraction maps NaN to NaN.  When no value is present the mean is NaN and
every entry stays NaN, which the single formula below also yields (there is
then no present value to shift). -/
def demean (l : List Obs) : List Obs :=
  let m := (presentVals l).sum / ((presentVals l).length : ℚ)
  l.map (fun o => { o with level := o.level.map (· - m) })

/-- Model of `extract_single_year_remove_mean`: keep the rows whose index
year equals the given year (`data[data.index.year == yr].copy()`), then
subtract the column mean in place on the copy. -/
def extract_single_year_remove_mean (year : Nat) (data : List Obs) : List Obs :=
  demean (data.filter (fun o => yearOf o.time == year))

/-- Timestamp of midnight at the start of a civil date (what
`pd.to_datetime(s, format='%Y%m%d')` yields for the eight-digit string with
these components). -/
def dayStartTs (y m d : Nat) : Nat := daysFromCivil y m d * 86400

/-- Model of `extract_section_remove_mean` with the start and end dates
given by their components: `end_ts` is start-of-end-day plus one day minus
one second; `data.loc[start_ts:end_ts]` on the (monotonic) time index keeps
exactly the rows whose label lies in the closed interval
`[start_ts, end_ts]` (pandas label slices include both endpoints), copied;
then the column mean is subtracted in place on the copy. -/
def extract_section_remove_mean (ys ms ds ye me de : Nat) (data : List Obs) : List Obs :=
  let start_ts := dayStartTs ys ms ds
  let end_ts := dayStartTs ye me de + 86400 - 1
  demean (data.filter (fun o => start_ts ≤ o.time && o.time ≤ end_ts))

/-- Model of `join_data`: `pd.concat([data1, data2]).sort_index()` (where a
column missing on one side would be NaN-filled; both frames here share the
same columns). -/
def join_data (data1 data2 : List Obs) : List Obs :=
  sortByTime (data1 ++ data2)

/-- Model of matplotlib `date2num`: days since the default epoch
1970-01-01T00:00:00 (fractional days for intraday times). -/
def date2num (t : Nat) : ℚ := ((t : ℚ) - (epochCE : ℚ)) / 86400

/-- Slope of the ordinary least-squares regression line through the given
points, `cov(x, y) / var(x)`, in the cross-moment form scipy's `linregress`
computes.  (Division by zero — degenerate x — yields 0 here; the inputs at
issue have distinct x.) -/
def olsSlope (pts : List (ℚ × ℚ)) : ℚ :=
  let n : ℚ := pts.length
  let sx := (pts.map (·.1)).sum
  let sy := (pts.map (·.2)).sum
  let sxx := (pts.map (fun p => p.1 * p.1)).sum
  let sxy := (pts.map (fun p => p.1 * p.2)).sum
  (n * sxy - sx * sy) / (n * sxx - sx * sx)

/-- The x/y arrays `sea_level_rise` passes to `linregress`: missing rows
dropped, x the `date2num` day axis, y the sea levels. -/
def regressionPoints (data : List Obs) : List (ℚ × ℚ) :=
  (data.filter (fun o => o.level.isSome)).map
    (fun o => (date2num o.time, o.level.getD 0))

/-- Model of the slope returned by `sea_level_rise`: the `linregress` slope
on the cleaned data PLUS the hard-coded `epsilon = 8.3e-07` the source adds
before returning ("added a 0.0000008 offset to pass a test").  The p-value
is returned as `linregress` produced it, unadjusted. -/
def sea_level_rise_slope (data : List Obs) : ℚ :=
  olsSlope (regressionPoints data) + 83 / 100000000

/-- Is the sea level of this row present (pandas `notna`)? -/
def pres (o : Obs) : Bool := o.level.isSome

/-- Tail of the cumulative-sum group labelling
`(labeled != labeled.shift()).cumsum()`: `prev` is the previous boolean,
`g` the label it received; a change increments the label. -/
def groupIdsAux (prev : Bool) (g : Nat) : List Bool → List Nat
  | [] => []
  | b :: l => if b == prev then g :: groupIdsAux b g l else (g + 1) :: groupIdsAux b (g + 1) l

/-- The group labelling of `get_longest_contiguous_data`: the first row
always differs from the shifted NaN, so labels start at 1 and increment at
every presence change. -/
def groupIds : List Bool → List Nat
  | [] => []
  | b :: l => 1 :: groupIdsAux b 1 l

/-- Model of `.value_counts().idxmax()` on the present-row labels:
`value_counts` lists each distinct label with its count in descending count
order (equal counts keep first-encountered order) and `idxmax` takes the
first maximum, so the chosen label is the distinct label of maximal count,
earliest on ties — which the fold with a strict comparison computes.  On an
all-missing frame the list is empty and `idxmax` raises
`ValueError: attempt to get argmax of an empty sequence`. -/
def bestLabel (presentIds : List Nat) : Except String Nat :=
  match presentIds with
  | [] => .error "ValueError"
  | g0 :: gs =>
    .ok (gs.foldl (fun b h => if presentIds.count h > presentIds.count b then h else b) g0)

/-- Model of `get_longest_contiguous_data`: label the rows by presence runs
with the cumulative-sum labelling, keep the labels of present rows
(`inc_groups[labeled_list]`), choose the best label with
`.value_counts().idxmax()` and return the rows of that label
(`data.loc[inc_groups == best]`); the `idxmax` error for an all-missing
frame propagates. -/
def get_longest_contiguous_data (data : List Obs) : Except String (List Obs) :=
  let labeled := data.map pres
  let ids := groupIds labeled
  let presentIds := ((ids.zip labeled).filter (·.2)).map (·.1)
  (bestLabel presentIds).map
    (fun best => ((data.zip ids).filter (fun p => p.2 == best)).map (·.1))

/-- Prepend one row to a run partition: extend the first run when the
presence flag matches, start a new run otherwise. -/
def blocksPush (b : Bool) (o : Obs) : List (Bool × List Obs) → List (Bool × List Obs)
  | [] => [(b, [o])]
  | (b0, r) :: rest => if b == b0 then (b0, o :: r) :: rest else (b, [o]) :: (b0, r) :: rest

/-- Modelled from the spec (§4.5, for comparison with the source): partition
a series into its maximal runs of consecutive rows sharing the same
presence flag. -/
def blocks : List Obs → List (Bool × List Obs)
  | [] => []
  | o :: l => blocksPush (pres o) o (blocks l)

/-- Modelled from the spec (§4.5): the "present" runs, in series order. -/
def presentRuns (data : List Obs) : List (List Obs) :=
  ((blocks data).filter (·.1)).map (·.2)

/-- Modelled from the spec (§4.5): among the listed runs, the one with the
largest element count, the earliest on ties (strict improvement only). -/
def firstLongest : List (List Obs) → Option (List Obs)
  | [] => none
  | r :: rs => some (rs.foldl (fun b s => if s.length > b.length then s else b) r)

/-- A pandas DataFrame value on the Python heap. -/
abbrev Frame := List Obs

/-- The Python heap, for the aliasing/mutation claims: frames addressed by
allocation index. -/
abbrev Heap := List Frame

/-- Allocate a fresh frame, returning the new heap and its reference. -/
def halloc (h : Heap) (f : Frame) : Heap × Nat := (h ++ [f], h.length)

/-- Read the frame at a reference. -/
def hget (h : Heap) (r : Nat) : Frame := (h[r]?).getD []

/-- Overwrite the frame at a reference (an in-place pandas operation). -/
def hset (h : Heap) (r : Nat) (f : Frame) : Heap := h.set r f

/-- Heap-level model of `extract_single_year_remove_mean`: boolean-mask
indexing `data[data.index.year == yr]` allocates a new frame, `.copy()`
allocates again, and the `-=` mutates the copy in place. -/
def extract_single_year_heap (year : Nat) (h : Heap) (r : Nat) : Heap × Nat :=
  let masked := halloc h ((hget h r).filter (fun o => yearOf o.time == year))
  let copied := halloc masked.1 (hget masked.1 masked.2)
  (hset copied.1 copied.2 (demean (hget copied.1 copied.2)), copied.2)

/-- Heap-level model of `extract_section_remove_mean`: `.loc[start:end]`
produces a new frame, `.copy()` allocates again, and the `-=` mutates the
copy in place. -/
def extract_section_heap (ys ms ds ye me de : Nat) (h : Heap) (r : Nat) : Heap × Nat :=
  let start_ts := dayStartTs ys ms ds
  let end_ts := dayStartTs ye me de + 86400 - 1
  let sliced := halloc h
    ((hget h r).filter (fun o => start_ts ≤ o.time && o.time ≤ end_ts))
  let copied := halloc sliced.1 (hget sliced.1 sliced.2)
  (hset copied.1 copied.2 (demean (hget copied.1 copied.2)), copied.2)

/-- Heap-level model of `join_data`: `pd.concat` allocates the result; the
inputs are not touched. -/
def join_data_heap (h : Heap) (r1 r2 : Nat) : Heap × Nat :=
  halloc h (join_data (hget h r1) (hget h r2))

/-- Heap-level model of `get_longest_contiguous_data`: `.loc[mask]`
allocates the selected rows as a new frame; the input is not touched. -/
def get_longest_contiguous_heap (h : Heap) (r : Nat) : Except String (Heap × Nat) :=
  match get_longest_contiguous_data (hget h r) with
  | .error e => .error e
  | .ok res => .ok (halloc h res)

/-- A generic input series for the concrete instances below: sea level `q`
at hour `k` of 1947-11-25. -/
def atHour (k : Nat) (q : Option ℚ) : Obs :=
  { time := daysFromCivil 1947 11 25 * 86400 + k * 3600, level := q }

/-- C1: the claim asserts the returned slope is exactly the OLS slope with
no constant offset.  On the series with sea level 0 at 1970-01-01 00:00:00
and 1 at 1970-01-02 00:00:00 the OLS slope is exactly 1 per day, but
`sea_level_rise` returns 1 + 8.3e-07: the hard-coded epsilon offset of the
source is observable. -/
theorem C1_slope_offset_observable :
    sea_level_rise_slope [⟨epochCE, some 0⟩, ⟨epochCE + 86400, some 1⟩]
        = 1 + 83 / 100000000
      ∧ olsSlope (regressionPoints [⟨epochCE, some 0⟩, ⟨epochCE + 86400, some 1⟩]) = 1
      ∧ sea_level_rise_slope [⟨epochCE, some 0⟩, ⟨epochCE + 86400, some 1⟩]
        ≠ olsSlope (regressionPoints [⟨epochCE, some 0⟩, ⟨epochCE + 86400, some 1⟩]) := by
  have hpts : regressionPoints [⟨epochCE, some 0⟩, ⟨epochCE + 86400, some 1⟩]
      = [(0, 0), (1, 1)] := by
    simp only [regressionPoints, List.filter, Option.isSome_some, List.map, date2num,
      Option.getD_some]
    push_cast
    norm_num
  have hols : olsSlope [((0 : ℚ), (0 : ℚ)), (1, 1)] = 1 := by
    norm_num [olsSlope]
  refine ⟨?_, ?_, ?_⟩
  · rw [sea_level_rise_slope, hpts, hols]
  · rw [hpts, hols]
  · rw [sea_level_rise_slope, hpts, hols]
    norm_num

/-- C2: for every input line accepted by the record pattern that yields an
observation, if the sea-level field ends in one of the flag characters
N, T, M then the observation carries the missing marker — the field is
never parsed as a float. -/
theorem C2_flagged_field_yields_missing (line : String) (g : Groups) (o : Obs)
    (hm : matchLine line = some g) (hf : endsInFlag g.sealevel = true)
    (ho : processLine line = .ok (some o)) : o.level = none := by
  unfold processLine at ho
  rw [hm] at ho
  simp only [hf, if_true] at ho
  split at ho
  · injection ho with ho'
    injection ho' with ho''
    rw [← ho'']
  · exact absurd ho (by simp)

/-- Witness for C2 at the concrete line `7894) 1947/11/25 21:00:00 3.4804M
0.1912`: it matches the pattern, its sea-level field ends in the flag M, it
is accepted, and the resulting observation is missing. -/
theorem C2_flagged_field_yields_missing_witness :
    processLine " 7894) 1947/11/25 21:00:00 3.4804M 0.1912"
        = .ok (some { time := 61438165200, level := none })
      ∧ (Obs.mk 61438165200 none).level = none := by
  refine ⟨rfl, ?_⟩
  exact C2_flagged_field_yields_missing " 7894) 1947/11/25 21:00:00 3.4804M 0.1912"
    { yr := 1947, mo := 11, dy := 25, hh := 21, mi := 0, ss := 0,
      sealevel := "3.4804M".data, residual := "0.1912".data }
    (Obs.mk 61438165200 none) (by rfl) (by rfl) (by rfl)

/-- C5: an all-missing series makes `get_longest_contiguous_data` fail with
the distinct error raised by `idxmax` on the empty `value_counts` result,
rather than return an empty or garbage frame. -/
theorem C5_all_missing_raises (data : List Obs) (h : ∀ o ∈ data, o.level = none) :
    get_longest_contiguous_data data = .error "ValueError" := by
  unfold get_longest_contiguous_data
  have hnil : ((groupIds (data.map pres)).zip (data.map pres)).filter (·.2) = [] := by
    rw [List.filter_eq_nil_iff]
    intro a ha
    have := (List.of_mem_zip ha).2
    simp only [List.mem_map] at this
    obtain ⟨o, ho, hpo⟩ := this
    simp [← hpo, pres, h o ho]
  simp only [hnil]
  rfl

/-- Witness for C5 on a concrete two-row all-missing series. -/
theorem C5_all_missing_raises_witness :
    (∀ o ∈ [atHour 0 none, atHour 1 none], o.level = none)
      ∧ get_longest_contiguous_data [atHour 0 none, atHour 1 none]
        = .error "ValueError" :=
  ⟨by decide, C5_all_missing_raises [atHour 0 none, atHour 1 none] (by decide)⟩

set_option maxRecDepth 4000

/-- C7 counterexample: on a file of three header-like lines (fewer than the
eleven skipped lines) `read_tidal_data` raises — `next(file)` hits the end
of the file, StopIteration is re-raised by the broad `except` — so it does
not return the empty result the claim asserts. -/
theorem C7_short_header_counterexample :
    read_tidal_data ["Port: P038", "Site: Aberdeen", "Latitude: 57.14"]
        = .error "StopIteration"
      ∧ ∀ os : List Obs,
        read_tidal_data ["Port: P038", "Site: Aberdeen", "Latitude: 57.14"] ≠ .ok os := by
  exact ⟨rfl, fun os h => by simp [read_tidal_data] at h⟩

/-- C7 amended: for every input file with fewer than eleven lines,
`read_tidal_data` raises (StopIteration from the header skip propagates)
rather than returning an empty result. -/
theorem C7_short_header_raises (lines : List String) (h : lines.length < 11) :
    read_tidal_data lines = .error "StopIteration" := by
  simp [read_tidal_data, h]

/-- Witness for the amended C7 on a concrete three-line file. -/
theorem C7_short_header_raises_witness :
    ([ "Port: P038", "Site: Aberdeen", "Latitude: 57.14" ] : List String).length < 11
      ∧ read_tidal_data ["Port: P038", "Site: Aberdeen", "Latitude: 57.14"]
        = .error "StopIteration" :=
  ⟨by decide, C7_short_header_raises ["Port: P038", "Site: Aberdeen", "Latitude: 57.14"]
    (by decide)⟩

/-- C10: a line whose sea-level field `3.4N8` matches the line pattern but
neither is a valid float nor ends in a flag character makes
`read_tidal_data` fail for the entire file (the `float` call raises
ValueError, re-raised by the broad `except`), rather than skip the line or
record a missing observation. -/
theorem C10_invalid_field_raises :
    (matchLine " 7894) 1947/11/25 21:00:00 3.4N8 0.1912").isSome = true
      ∧ (∀ g, matchLine " 7894) 1947/11/25 21:00:00 3.4N8 0.1912" = some g →
          endsInFlag g.sealevel = false ∧ pyFloat g.sealevel = none)
      ∧ read_tidal_data
          ["h1", "h2", "h3", "h4", "h5", "h6", "h7", "h8", "h9", "h10", "h11",
            " 7893) 1947/11/25 20:00:00 3.1702 0.1883",
            " 7894) 1947/11/25 21:00:00 3.4N8 0.1912"]
        = .error "ValueError" := by
  refine ⟨by decide, by decide, by rfl⟩

lemma map_time_demean (l : List Obs) : (demean l).map Obs.time = l.map Obs.time := by
  simp only [demean, List.map_map]
  rfl

lemma map_isSome_demean (l : List Obs) :
    (demean l).map (fun o => o.level.isSome) = l.map (fun o => o.level.isSome) := by
  simp only [demean, List.map_map]
  refine List.map_congr_left fun o _ => ?_
  simp [Option.isSome_map]

/-- C6: range extraction selects exactly the timestamps between start-of-
start-day and 23:59:59 of the end day, both inclusive: a row at exactly
that boundary second is kept and a row one second later (midnight of the
following day) is not. -/
theorem C6_section_boundaries (ys ms ds ye me de : Nat) (data : List Obs) (o : Obs)
    (ho : o ∈ data) :
    ((extract_section_remove_mean ys ms ds ye me de data).map Obs.time
        = (data.map Obs.time).filter
            (fun t => dayStartTs ys ms ds ≤ t
              && t ≤ dayStartTs ye me de + 23 * 3600 + 59 * 60 + 59))
      ∧ (o.time = dayStartTs ye me de + 23 * 3600 + 59 * 60 + 59 →
          dayStartTs ys ms ds ≤ o.time →
          o.time ∈ (extract_section_remove_mean ys ms ds ye me de data).map Obs.time)
      ∧ (o.time = dayStartTs ye me de + 86400 →
          o.time ∉ (extract_section_remove_mean ys ms ds ye me de data).map Obs.time) := by
  have harith : dayStartTs ye me de + 86400 - 1
      = dayStartTs ye me de + 23 * 3600 + 59 * 60 + 59 := by omega
  have hmain : (extract_section_remove_mean ys ms ds ye me de data).map Obs.time
      = (data.map Obs.time).filter
          (fun t => dayStartTs ys ms ds ≤ t
            && t ≤ dayStartTs ye me de + 23 * 3600 + 59 * 60 + 59) := by
    unfold extract_section_remove_mean
    rw [map_time_demean, harith, List.filter_map]
    rfl
  refine ⟨hmain, fun he hs => ?_, fun he hmem => ?_⟩
  · rw [hmain]
    refine List.mem_filter.mpr ⟨List.mem_map_of_mem Obs.time ho, ?_⟩
    simp only [Bool.and_eq_true, decide_eq_true_eq]
    omega
  · rw [hmain] at hmem
    have := (List.mem_filter.mp hmem).2
    simp only [Bool.and_eq_true, decide_eq_true_eq] at this
    omega

/-- Witness for C6 at the range 2000-01-01 .. 2000-01-02 on a concrete
series: the row at 2000-01-02 23:59:59 is selected, the row at 2000-01-03
00:00:00 is not. -/
theorem C6_section_boundaries_witness :
    (dayStartTs 2000 1 2 + 86399
        ∈ (extract_section_remove_mean 2000 1 1 2000 1 2
            [⟨dayStartTs 2000 1 2 + 86399, some 2⟩,
              ⟨dayStartTs 2000 1 3, some 4⟩]).map Obs.time)
      ∧ (dayStartTs 2000 1 3
        ∉ (extract_section_remove_mean 2000 1 1 2000 1 2
            [⟨dayStartTs 2000 1 2 + 86399, some 2⟩,
              ⟨dayStartTs 2000 1 3, some 4⟩]).map Obs.time) := by
  constructor
  · exact (C6_section_boundaries 2000 1 1 2000 1 2 _
      ⟨dayStartTs 2000 1 2 + 86399, some 2⟩ (by simp)).2.1 (by decide) (by decide)
  · exact (C6_section_boundaries 2000 1 1 2000 1 2 _
      ⟨dayStartTs 2000 1 3, some 4⟩ (by simp)).2.2 (by decide)

lemma presentVals_map_sub (l : List Obs) (m : ℚ) :
    presentVals (l.map fun o => { o with level := o.level.map (· - m) })
      = (presentVals l).map (· - m) := by
  induction l with
  | nil => rfl
  | cons o l ih =>
    cases ho : o.level with
    | none => simpa [presentVals, List.filterMap_cons, ho] using ih
    | some q => simpa [presentVals, List.filterMap_cons, ho] using ih

lemma presentVals_demean (l : List Obs) :
    presentVals (demean l)
      = (presentVals l).map (· - (presentVals l).sum / ((presentVals l).length : ℚ)) := by
  unfold demean
  exact presentVals_map_sub l _

lemma sum_map_sub_const (xs : List ℚ) (m : ℚ) :
    (xs.map (· - m)).sum = xs.sum - (xs.length : ℚ) * m := by
  induction xs with
  | nil => simp
  | cons x xs ih =>
    simp only [List.map_cons, List.sum_cons, ih, List.length_cons]
    push_cast
    ring

/-- C8: extracting a year and removing the mean yields a series whose
non-missing values have arithmetic mean 0 (their sum is 0 and so is the
mean), provided the year holds at least one non-missing observation; and
the presence pattern (which rows are missing) of the extracted year is
unchanged by the demeaning. -/
theorem C8_year_extraction_demeans (year : Nat) (data : List Obs)
    (h : ∃ o ∈ data, yearOf o.time = year ∧ o.level.isSome = true) :
    (presentVals (extract_single_year_remove_mean year data)).sum = 0
      ∧ (presentVals (extract_single_year_remove_mean year data)).sum
          / ((presentVals (extract_single_year_remove_mean year data)).length : ℚ) = 0
      ∧ (extract_single_year_remove_mean year data).map (fun o => o.level.isSome)
          = (data.filter (fun o => yearOf o.time == year)).map (fun o => o.level.isSome) := by
  obtain ⟨o, ho, hy, hp⟩ := h
  have hosub : o ∈ data.filter (fun o => yearOf o.time == year) :=
    List.mem_filter.mpr ⟨ho, by simp [hy]⟩
  obtain ⟨q, hq⟩ := Option.isSome_iff_exists.mp hp
  have hqmem : q ∈ presentVals (data.filter (fun o => yearOf o.time == year)) :=
    List.mem_filterMap.mpr ⟨o, hosub, hq⟩
  have hne : (presentVals (data.filter (fun o => yearOf o.time == year))).length ≠ 0 :=
    fun hlen => by simp [List.length_eq_zero.mp hlen] at hqmem
  have hcast : ((presentVals (data.filter (fun o => yearOf o.time == year))).length : ℚ) ≠ 0 :=
    Nat.cast_ne_zero.mpr hne
  have hsum : (presentVals (extract_single_year_remove_mean year data)).sum = 0 := by
    unfold extract_single_year_remove_mean
    rw [presentVals_demean, sum_map_sub_const]
    field_simp
  refine ⟨hsum, by rw [hsum]; simp, ?_⟩
  unfold extract_single_year_remove_mean
  exact map_isSome_demean _

/-- Witness for C8 on a concrete series: year 1947 holds two non-missing
values 2 and 4 (and one missing row); after extraction and demeaning the
present values sum to 0, the mean is 0, and the missing row stays missing. -/
theorem C8_year_extraction_demeans_witness :
    (∃ o ∈ [atHour 0 (some 2), atHour 1 none, atHour 2 (some 4)],
        yearOf o.time = 1947 ∧ o.level.isSome = true)
      ∧ (presentVals (extract_single_year_remove_mean 1947
          [atHour 0 (some 2), atHour 1 none, atHour 2 (some 4)])).sum = 0 := by
  have hex : ∃ o ∈ [atHour 0 (some 2), atHour 1 none, atHour 2 (some 4)],
      yearOf o.time = 1947 ∧ o.level.isSome = true :=
    ⟨atHour 0 (some 2), by simp, by decide, rfl⟩
  exact ⟨hex, (C8_year_extraction_demeans 1947 _ hex).1⟩

lemma hget_append_lt (h : Heap) (f : Frame) (rp : Nat) (hrp : rp < h.length) :
    hget (h ++ [f]) rp = hget h rp := by
  simp [hget, List.getElem?_append, hrp]

lemma hget_concat_self (h : Heap) (f : Frame) : hget (h ++ [f]) h.length = f := by
  simp [hget, List.getElem?_concat_length]

lemma hget_set_ne (h : Heap) (r : Nat) (f : Frame) (rp : Nat) (hne : r ≠ rp) :
    hget (hset h r f) rp = hget h rp := by
  simp [hget, hset, List.getElem?_set_ne hne]

lemma hget_set_self (h : Heap) (r : Nat) (f : Frame) (hr : r < h.length) :
    hget (hset h r f) r = f := by
  simp [hget, hset, List.getElem?_set, hr]

/-- C9: none of the four transformations mutates any frame already on the
heap — in particular the in-place `-=` of the two extractors acts on the
`.copy()` only — and the frame each extractor returns is the value the
pure model computes from the (unchanged) input. -/
theorem C9_transformations_do_not_mutate (hp : Heap) (r r1 r2 rp : Nat)
    (year ys ms ds ye me de : Nat) (hrp : rp < hp.length) :
    hget (extract_single_year_heap year hp r).1 rp = hget hp rp
      ∧ hget (extract_section_heap ys ms ds ye me de hp r).1 rp = hget hp rp
      ∧ hget (join_data_heap hp r1 r2).1 rp = hget hp rp
      ∧ (∀ h2 rr, get_longest_contiguous_heap hp r = .ok (h2, rr) →
          hget h2 rp = hget hp rp)
      ∧ hget (extract_single_year_heap year hp r).1 (extract_single_year_heap year hp r).2
          = extract_single_year_remove_mean year (hget hp r)
      ∧ hget (extract_section_heap ys ms ds ye me de hp r).1
            (extract_section_heap ys ms ds ye me de hp r).2
          = extract_section_remove_mean ys ms ds ye me de (hget hp r) := by
  have hyear : ∀ sub : Frame,
      hget (hset ((hp ++ [sub]) ++ [hget (hp ++ [sub]) hp.length]) (hp.length + 1)
          (demean (hget ((hp ++ [sub]) ++ [hget (hp ++ [sub]) hp.length]) (hp.length + 1))))
        rp = hget hp rp := by
    intro sub
    rw [hget_set_ne _ _ _ _ (by omega),
      hget_append_lt _ _ _ (by simp; omega), hget_append_lt _ _ _ hrp]
  have hres : ∀ sub : Frame,
      hget (hset ((hp ++ [sub]) ++ [hget (hp ++ [sub]) hp.length]) (hp.length + 1)
          (demean (hget ((hp ++ [sub]) ++ [hget (hp ++ [sub]) hp.length]) (hp.length + 1))))
        (hp.length + 1) = demean sub := by
    intro sub
    have h1 : hget (hp ++ [sub]) hp.length = sub := hget_concat_self hp sub
    have h2 : hget ((hp ++ [sub]) ++ [sub]) (hp.length + 1) = sub := by
      have := hget_concat_self (hp ++ [sub]) sub
      simpa using this
    rw [h1, hget_set_self _ _ _ (by simp), h2]
  refine ⟨?_, ?_, ?_, ?_, ?_, ?_⟩
  · simpa [extract_single_year_heap, halloc, List.length_append] using
      hyear ((hget hp r).filter (fun o => yearOf o.time == year))
  · simpa [extract_section_heap, halloc, List.length_append] using
      hyear ((hget hp r).filter (fun o =>
        dayStartTs ys ms ds ≤ o.time && o.time ≤ dayStartTs ye me de + 86400 - 1))
  · simpa [join_data_heap, halloc] using
      hget_append_lt hp (join_data (hget hp r1) (hget hp r2)) rp hrp
  · intro h2 rr hok
    unfold get_longest_contiguous_heap at hok
    split at hok
    · exact absurd hok (by simp)
    · injection hok with hok'
      have : h2 = hp ++ [_] := congrArg Prod.fst hok'.symm
      rw [this]
      exact hget_append_lt _ _ _ hrp
  · simpa [extract_single_year_heap, halloc, extract_single_year_remove_mean,
      List.length_append] using
      hres ((hget hp r).filter (fun o => yearOf o.time == year))
  · simpa [extract_section_heap, halloc, extract_section_remove_mean,
      List.length_append] using
      hres ((hget hp r).filter (fun o =>
        dayStartTs ys ms ds ≤ o.time && o.time ≤ dayStartTs ye me de + 86400 - 1))

/-- Witness for C9 on a concrete one-frame heap. -/
theorem C9_transformations_do_not_mutate_witness :
    hget (extract_single_year_heap 1947 [[atHour 0 (some 2), atHour 1 none]] 0).1 0
      = hget [[atHour 0 (some 2), atHour 1 none]] 0 :=
  (C9_transformations_do_not_mutate [[atHour 0 (some 2), atHour 1 none]] 0 0 0 0
    1947 2000 1 1 2000 1 2 (by decide)).1

instance : IsTotal Obs timeLE := ⟨fun a b => Nat.le_total a.time b.time⟩

instance : IsTrans Obs timeLE := ⟨fun _ _ _ => Nat.le_trans⟩

/-- C3 amended: whenever the assembler succeeds, its result is the records
of all matching files — parsed in lexicographic name order and
concatenated — in non-decreasing timestamp order, containing exactly that
multiset of records.  The relative order of rows with equal timestamps is
deliberately NOT part of this statement: the source sorts with
`sort_index()`'s default quicksort kind, which pandas does not guarantee
to be stable, so order and multiset are the only sequence properties the
program promises; the counterexample below shows the sequence is
consequently not independent of how records are distributed across file
names. -/
theorem C3_assembler_sorts_by_time (folder : List (String × List String))
    (out : List Obs) (frames : List (List Obs))
    (hf : readFrames (globSorted folder) = .ok frames)
    (hok : read_all_tidal_data folder = .ok out) :
    out.Sorted timeLE ∧ out.Perm frames.flatten := by
  unfold read_all_tidal_data at hok
  rw [hf] at hok
  have hok' : (if frames.isEmpty = true then Except.error "ValueError"
      else Except.ok (sortByTime frames.flatten)) = Except.ok out := hok
  by_cases hne : frames.isEmpty = true
  · rw [if_pos hne] at hok'
    exact absurd hok' (by simp)
  · rw [if_neg hne] at hok'
    injection hok' with h
    subst h
    exact ⟨List.sorted_insertionSort timeLE frames.flatten,
      List.perm_insertionSort timeLE frames.flatten⟩

/-- A well-formed eleven-line header for the concrete files below. -/
def hdr11 : List String := ["1", "2", "3", "4", "5", "6", "7", "8", "9", "10", "11"]

/-- File containing the single present record 1947-11-25 21:00:00, 1.5. -/
def filePresent : List String := hdr11 ++ ["  1) 1947/11/25 21:00:00 1.5 0.0"]

/-- File containing the single flagged (missing) record at the same
timestamp 1947-11-25 21:00:00. -/
def fileMissing : List String := hdr11 ++ ["  2) 1947/11/25 21:00:00 2.0N 0.0"]

/-- The present observation of `filePresent`. -/
def obsPresent : Obs := ⟨61438165200, pyFloat "1.5".data⟩

/-- The missing observation of `fileMissing`. -/
def obsMissing : Obs := ⟨61438165200, none⟩

/-- Witness for the amended C3 on a concrete two-file folder (given in
non-lexicographic order): the assembler's output is time-sorted and is the
multiset of the name-ordered concatenation. -/
theorem C3_assembler_sorts_by_time_witness :
    ([obsPresent, obsMissing] : List Obs).Sorted timeLE
      ∧ ([obsPresent, obsMissing] : List Obs).Perm
          ([[obsPresent], [obsMissing]] : List (List Obs)).flatten :=
  C3_assembler_sorts_by_time [("b.txt", fileMissing), ("a.txt", filePresent)]
    [obsPresent, obsMissing] [[obsPresent], [obsMissing]] (by rfl) (by rfl)

/-- C3 counterexample: two folders holding the same multiset of records —
a present reading and a flagged (missing) reading with the SAME timestamp —
distributed across the file names `a.txt`, `b.txt` in the two possible
ways.  The assembler returns the two records in different orders, so the
output sequence is NOT independent of how records are distributed across
file names.  (On these inputs the model's tie order is pandas' own: each
concatenated two-row index is already monotonic, and `sort_index` returns
an already-monotonic frame unchanged, so the ties keep file order.) -/
theorem C3_distribution_counterexample :
    read_all_tidal_data [("a.txt", filePresent), ("b.txt", fileMissing)]
        = .ok [obsPresent, obsMissing]
      ∧ read_all_tidal_data [("a.txt", fileMissing), ("b.txt", filePresent)]
        = .ok [obsMissing, obsPresent]
      ∧ ([obsPresent, obsMissing] : List Obs).Perm [obsMissing, obsPresent]
      ∧ ([obsPresent, obsMissing] : List Obs) ≠ [obsMissing, obsPresent] := by
  refine ⟨by rfl, by rfl, List.Perm.swap obsMissing obsPresent [], ?_⟩
  intro h
  have h1 : obsPresent = obsMissing := by injection h
  have h3 : (obsPresent.level).isSome = true := by decide
  rw [h1] at h3
  exact absurd h3 (by decide)

/-- Each observation of each block, paired with its block label (labels
count up from `g` across the blocks) — the shape `cumsum` gives the rows. -/
def tagBlocks (g : Nat) : List (Bool × List Obs) → List (Obs × Nat)
  | [] => []
  | br :: rest => br.2.map (fun o => (o, g)) ++ tagBlocks (g + 1) rest

/-- The blocks themselves paired with their labels. -/
def tagIdx (g : Nat) : List (Bool × List Obs) → List (Nat × Bool × List Obs)
  | [] => []
  | br :: rest => (g, br) :: tagIdx (g + 1) rest

lemma groupIdsAux_add (k : Nat) (l : List Bool) : ∀ (prev : Bool) (g : Nat),
    groupIdsAux prev (g + k) l = (groupIdsAux prev g l).map (· + k) := by
  induction l with
  | nil => intro prev g; rfl
  | cons b l ih =>
    intro prev g
    by_cases hb : (b == prev) = true
    · simp only [groupIdsAux, hb, if_true, List.map_cons, ih b g]
    · simp only [groupIdsAux, hb, Bool.false_eq_true, if_false, List.map_cons]
      have : g + k + 1 = g + 1 + k := by omega
      rw [this, ih b (g + 1)]

lemma groupIds_cons_cons (b c : Bool) (l : List Bool) :
    groupIds (b :: c :: l)
      = 1 :: (if c == b then groupIds (c :: l) else (groupIds (c :: l)).map (· + 1)) := by
  by_cases hc : (c == b) = true
  · simp only [groupIds, groupIdsAux, hc, if_true]
  · simp only [groupIds, groupIdsAux, hc, Bool.false_eq_true, if_false, List.map_cons]
    rw [groupIdsAux_add 1 l c 1]

lemma map_tagBlocks_succ (bl : List (Bool × List Obs)) : ∀ g : Nat,
    (tagBlocks g bl).map (Prod.map id (· + 1)) = tagBlocks (g + 1) bl := by
  induction bl with
  | nil => intro g; rfl
  | cons br rest ih =>
    intro g
    simp only [tagBlocks, List.map_append, List.map_map, ih (g + 1)]
    rfl

lemma blocks_cons (o : Obs) (l : List Obs) :
    blocks (o :: l) = blocksPush (pres o) o (blocks l) := rfl

lemma blocks_cons_head (o : Obs) (l : List Obs) :
    ∃ r rest, blocks (o :: l) = (pres o, o :: r) :: rest := by
  rcases hbl : blocks l with _ | ⟨⟨b, r⟩, rest⟩
  · exact ⟨[], [], by rw [blocks_cons, hbl]; rfl⟩
  · by_cases hpb : (pres o == b) = true
    · refine ⟨r, rest, ?_⟩
      rw [blocks_cons, hbl]
      simp only [blocksPush, hpb, if_true]
      rw [eq_of_beq hpb]
    · refine ⟨[], (b, r) :: rest, ?_⟩
      rw [blocks_cons, hbl]
      simp only [blocksPush, hpb, Bool.false_eq_true, if_false]

lemma blocks_mem_flag (l : List Obs) : ∀ p ∈ blocks l, (∀ o ∈ p.2, pres o = p.1) ∧ p.2 ≠ [] := by
  induction l with
  | nil => intro p hp; exact absurd hp (by simp [blocks])
  | cons o l ih =>
    intro p hp
    rw [blocks_cons] at hp
    rcases hbl : blocks l with _ | ⟨⟨b, r⟩, rest⟩
    · rw [hbl] at hp
      simp only [blocksPush, List.mem_singleton] at hp
      subst hp
      exact ⟨by simp, by simp⟩
    · rw [hbl] at hp
      by_cases hpb : (pres o == b) = true
      · simp only [blocksPush, hpb, if_true] at hp
        rcases List.mem_cons.mp hp with hh | ht
        · subst hh
          have hb := eq_of_beq hpb
          have hhead := ih (b, r) (hbl ▸ List.mem_cons_self _ _)
          refine ⟨?_, by simp⟩
          intro o' ho'
          rcases List.mem_cons.mp ho' with h1 | h2
          · subst h1; exact hb
          · exact hhead.1 o' h2
        · exact ih p (hbl ▸ List.mem_cons_of_mem _ ht)
      · simp only [blocksPush, hpb, Bool.false_eq_true, if_false] at hp
        rcases List.mem_cons.mp hp with hh | ht
        · subst hh
          exact ⟨by simp, by simp⟩
        · exact ih p (hbl ▸ ht)

lemma zip_groupIds_eq_tagBlocks (l : List Obs) :
    l.zip (groupIds (l.map pres)) = tagBlocks 1 (blocks l) := by
  induction l with
  | nil => rfl
  | cons o l ih =>
    match l with
    | [] => rfl
    | o' :: l' =>
      rw [List.map_cons, List.map_cons, groupIds_cons_cons (pres o) (pres o') (l'.map pres),
        ← List.map_cons, List.zip_cons_cons]
      obtain ⟨r, rest, hbl⟩ := blocks_cons_head o' l'
      by_cases hsame : (pres o' == pres o) = true
      · rw [if_pos hsame]
        have heq : (pres o == pres o') = true := by
          rw [beq_iff_eq]
          rw [beq_iff_eq] at hsame
          exact hsame.symm
        have hblocks : blocks (o :: o' :: l') = (pres o', o :: o' :: r) :: rest := by
          rw [blocks_cons o (o' :: l'), hbl]
          simp only [blocksPush, heq, if_true]
        rw [hblocks, ih, hbl]
        simp [tagBlocks]
      · rw [if_neg hsame]
        have heq : (pres o == pres o') = false := by
          rw [beq_eq_false_iff_ne]
          intro h
          exact hsame (by rw [beq_iff_eq]; exact h.symm)
        have hblocks : blocks (o :: o' :: l') = (pres o, [o]) :: blocks (o' :: l') := by
          rw [blocks_cons o (o' :: l'), hbl]
          simp only [blocksPush, heq, Bool.false_eq_true, if_false]
        rw [hblocks, List.zip_map_right, ih]
        show (o, 1) :: (tagBlocks 1 (blocks (o' :: l'))).map (Prod.map id (· + 1)) = _
        rw [map_tagBlocks_succ (blocks (o' :: l')) 1]
        rfl

lemma presentIds_swap (l : List Obs) : ∀ ids : List Nat,
    ((ids.zip (l.map pres)).filter (·.2)).map (·.1)
      = ((l.zip ids).filter (fun p => pres p.1)).map (·.2) := by
  induction l with
  | nil => intro ids; cases ids <;> rfl
  | cons o l ih =>
    intro ids
    cases ids with
    | nil => rfl
    | cons g gs =>
      simp only [List.map_cons, List.zip_cons_cons, List.filter_cons]
      cases hp : pres o <;> simp [hp, ih gs]

lemma filter_tagged_run (r : List Obs) (b : Bool) (g : Nat) (hflag : ∀ o ∈ r, pres o = b) :
    ((r.map (fun o => (o, g))).filter (fun p => pres p.1)).map (·.2)
      = if b then List.replicate r.length g else [] := by
  induction r with
  | nil => cases b <;> rfl
  | cons o r ih =>
    have ho : pres o = b := hflag o (List.mem_cons_self o r)
    have ihr := ih (fun o' ho' => hflag o' (List.mem_cons_of_mem o ho'))
    cases b <;>
      simp [List.filter_cons, ho, ihr, List.replicate_succ]

lemma presentIds_eq_flatten (bl : List (Bool × List Obs)) : ∀ g : Nat,
    (hflag : ∀ p ∈ bl, ∀ o ∈ p.2, pres o = p.1) →
    ((tagBlocks g bl).filter (fun p => pres p.1)).map (·.2)
      = (((tagIdx g bl).filter (fun t => t.2.1)).map
          (fun t => List.replicate t.2.2.length t.1)).flatten := by
  induction bl with
  | nil => intro g _; rfl
  | cons br rest ih =>
    intro g hflag
    obtain ⟨b, r⟩ := br
    have hh : ∀ o ∈ r, pres o = b := hflag (b, r) (List.mem_cons_self _ _)
    have iht := ih (g + 1) (fun p hp => hflag p (List.mem_cons_of_mem _ hp))
    simp only [tagBlocks, tagIdx, List.filter_append, List.map_append, List.filter_cons]
    rw [filter_tagged_run r b g hh]
    cases b
    · simpa using iht
    · simpa using iht

lemma tagIdx_mem_ge (bl : List (Bool × List Obs)) : ∀ (g : Nat) (t : Nat × Bool × List Obs),
    t ∈ tagIdx g bl → g ≤ t.1 := by
  induction bl with
  | nil => intro g t ht; exact absurd ht (by simp [tagIdx])
  | cons br rest ih =>
    intro g t ht
    rcases List.mem_cons.mp ht with hh | htail
    · subst hh; exact le_refl g
    · exact le_trans (Nat.le_succ g) (ih (g + 1) t htail)

lemma tagIdx_pairwise (bl : List (Bool × List Obs)) : ∀ g : Nat,
    (tagIdx g bl).Pairwise (fun s t => s.1 < t.1) := by
  induction bl with
  | nil => intro g; simp [tagIdx]
  | cons br rest ih =>
    intro g
    refine List.Pairwise.cons ?_ (ih (g + 1))
    intro t ht
    exact lt_of_lt_of_le (Nat.lt_succ_self g) (tagIdx_mem_ge rest (g + 1) t ht)

lemma tagIdx_mem_orig (bl : List (Bool × List Obs)) : ∀ (g : Nat) (t : Nat × Bool × List Obs),
    t ∈ tagIdx g bl → t.2 ∈ bl := by
  induction bl with
  | nil => intro g t ht; exact absurd ht (by simp [tagIdx])
  | cons br rest ih =>
    intro g t ht
    rcases List.mem_cons.mp ht with hh | htail
    · subst hh; exact List.mem_cons_self _ _
    · exact List.mem_cons_of_mem _ (ih (g + 1) t htail)

lemma count_flatten_zero (pb : List (Nat × List Obs)) (x : Nat)
    (hx : ∀ p ∈ pb, p.1 ≠ x) :
    List.count x ((pb.map fun p => List.replicate p.2.length p.1).flatten) = 0 := by
  induction pb with
  | nil => rfl
  | cons p rest ih =>
    simp only [List.map_cons, List.flatten_cons, List.count_append]
    rw [List.count_replicate, if_neg (by simp [hx p (List.mem_cons_self _ _)]),
      ih (fun q hq => hx q (List.mem_cons_of_mem _ hq))]

lemma count_flatten_mem (pb : List (Nat × List Obs))
    (hpw : pb.Pairwise (fun s t => s.1 < t.1)) :
    ∀ p ∈ pb, List.count p.1 ((pb.map fun q => List.replicate q.2.length q.1).flatten)
      = p.2.length := by
  induction pb with
  | nil => intro p hp; exact absurd hp (by simp)
  | cons q rest ih =>
    intro p hp
    simp only [List.map_cons, List.flatten_cons, List.count_append]
    rcases List.mem_cons.mp hp with hh | htail
    · subst hh
      rw [List.count_replicate, if_pos (by simp),
        count_flatten_zero rest p.1
          (fun s hs => Nat.ne_of_gt (List.rel_of_pairwise_cons hpw hs))]
      omega
    · have hlt : q.1 < p.1 := List.rel_of_pairwise_cons hpw htail
      rw [List.count_replicate, if_neg (by simp; omega), Nat.zero_add]
      exact ih hpw.of_cons p htail

lemma foldl_best_replicate (full : List Nat) (g : Nat) : ∀ (n : Nat) (a : Nat),
    List.foldl (fun b h => if full.count h > full.count b then h else b) a
        (List.replicate n g)
      = if n = 0 then a else (if full.count g > full.count a then g else a) := by
  intro n
  induction n with
  | zero => intro a; rfl
  | succ n ih =>
    intro a
    rw [List.replicate_succ, List.foldl_cons, ih]
    by_cases hn : n = 0
    · simp [hn]
    · rw [if_neg hn, if_neg (Nat.succ_ne_zero n)]
      by_cases hga : full.count g > full.count a
      · rw [if_pos hga]
        simp
      · rw [if_neg hga, if_neg hga]

lemma foldl_best_eq (full : List Nat) (pb : List (Nat × List Obs)) :
    ∀ acc : Nat × List Obs,
    (∀ p ∈ pb, full.count p.1 = p.2.length) → full.count acc.1 = acc.2.length →
    List.foldl (fun b h => if full.count h > full.count b then h else b) acc.1
        ((pb.map fun p => List.replicate p.2.length p.1).flatten)
      = (List.foldl (fun b s => if s.2.length > b.2.length then s else b) acc pb).1 := by
  induction pb with
  | nil => intro acc _ _; rfl
  | cons p rest ih =>
    intro acc hc hacc
    simp only [List.map_cons, List.flatten_cons, List.foldl_append, List.foldl_cons]
    have hstep : List.foldl (fun b h => if full.count h > full.count b then h else b) acc.1
        (List.replicate p.2.length p.1)
        = (if p.2.length > acc.2.length then p else acc).1 := by
      rw [foldl_best_replicate, hc p (List.mem_cons_self _ _), hacc]
      by_cases h0 : p.2.length = 0
      · rw [if_pos h0, if_neg (by omega)]
      · rw [if_neg h0]
        by_cases hgt : p.2.length > acc.2.length
        · rw [if_pos hgt, if_pos hgt]
        · rw [if_neg hgt, if_neg hgt]
    rw [hstep]
    exact ih (if p.2.length > acc.2.length then p else acc)
      (fun q hq => hc q (List.mem_cons_of_mem _ hq))
      (by by_cases hgt : p.2.length > acc.2.length
          · rw [if_pos hgt]; exact hc p (List.mem_cons_self _ _)
          · rw [if_neg hgt]; exact hacc)

lemma foldl_best_snd (pb : List (Nat × List Obs)) : ∀ acc : Nat × List Obs,
    (List.foldl (fun b s => if s.2.length > b.2.length then s else b) acc pb).2
      = List.foldl (fun b s => if s.length > b.length then s else b) acc.2
          (pb.map (·.2)) := by
  induction pb with
  | nil => intro acc; rfl
  | cons p rest ih =>
    intro acc
    simp only [List.map_cons, List.foldl_cons]
    rw [ih]
    by_cases hgt : p.2.length > acc.2.length
    · rw [if_pos hgt, if_pos hgt]
    · rw [if_neg hgt, if_neg hgt]

lemma foldl_best_mem (pb : List (Nat × List Obs)) : ∀ acc : Nat × List Obs,
    List.foldl (fun b s => if s.2.length > b.2.length then s else b) acc pb = acc
      ∨ List.foldl (fun b s => if s.2.length > b.2.length then s else b) acc pb ∈ pb := by
  induction pb with
  | nil => intro acc; exact Or.inl rfl
  | cons p rest ih =>
    intro acc
    rw [List.foldl_cons]
    rcases ih (if p.2.length > acc.2.length then p else acc) with h | h
    · rw [h]
      by_cases hgt : p.2.length > acc.2.length
      · rw [if_pos hgt]; exact Or.inr (List.mem_cons_self _ _)
      · rw [if_neg hgt]; exact Or.inl rfl
    · exact Or.inr (List.mem_cons_of_mem _ h)

lemma tagBlocks_mem_ge (bl : List (Bool × List Obs)) : ∀ (g : Nat) (p : Obs × Nat),
    p ∈ tagBlocks g bl → g ≤ p.2 := by
  induction bl with
  | nil => intro g p hp; exact absurd hp (by simp [tagBlocks])
  | cons br rest ih =>
    intro g p hp
    rcases List.mem_append.mp hp with hh | htail
    · obtain ⟨o, _, ho⟩ := List.mem_map.mp hh
      rw [← ho]
    · exact le_trans (Nat.le_succ g) (ih (g + 1) p htail)

lemma filter_tagBlocks_id (bl : List (Bool × List Obs)) :
    ∀ (g : Nat) (t : Nat × Bool × List Obs), t ∈ tagIdx g bl →
    ((tagBlocks g bl).filter (fun p => p.2 == t.1)).map (·.1) = t.2.2 := by
  induction bl with
  | nil => intro g t ht; exact absurd ht (by simp [tagIdx])
  | cons br rest ih =>
    intro g t ht
    obtain ⟨b0, r0⟩ := br
    simp only [tagBlocks, List.filter_append, List.map_append]
    rcases List.mem_cons.mp ht with hh | htail
    · subst hh
      have h1 : (r0.map (fun o => (o, g))).filter (fun p => p.2 == g) =
          r0.map (fun o => (o, g)) := by
        rw [List.filter_eq_self]
        intro p hp
        obtain ⟨o, _, ho⟩ := List.mem_map.mp hp
        rw [← ho]
        simp
      have h2 : (tagBlocks (g + 1) rest).filter (fun p => p.2 == g) = [] := by
        rw [List.filter_eq_nil_iff]
        intro p hp
        have := tagBlocks_mem_ge rest (g + 1) p hp
        simp
        omega
      rw [h1, h2, List.map_nil, List.append_nil, List.map_map]
      have hmap : ∀ l : List Obs,
          List.map ((fun (x : Obs × Nat) => x.1) ∘ fun o => (o, g)) l = l := by
        intro l
        induction l with
        | nil => rfl
        | cons a l ihl => simp only [List.map_cons, Function.comp_apply, ihl]
      exact hmap r0
    · have hge : g + 1 ≤ t.1 := tagIdx_mem_ge rest (g + 1) t htail
      have h1 : (r0.map (fun o => (o, g))).filter (fun p => p.2 == t.1) = [] := by
        rw [List.filter_eq_nil_iff]
        intro p hp
        obtain ⟨o, _, ho⟩ := List.mem_map.mp hp
        rw [← ho]
        simp
        omega
      rw [h1, ih (g + 1) t htail]
      rfl

lemma tagIdx_proj (bl : List (Bool × List Obs)) : ∀ g : Nat,
    ((tagIdx g bl).filter (fun t => t.2.1)).map (fun t => t.2.2)
      = (bl.filter (·.1)).map (·.2) := by
  induction bl with
  | nil => intro g; rfl
  | cons br rest ih =>
    intro g
    obtain ⟨b, r⟩ := br
    simp only [tagIdx, List.filter_cons]
    cases b
    · simpa using ih (g + 1)
    · simpa using ih (g + 1)

/-- C4: when the spec-side "earliest longest present run" exists,
`get_longest_contiguous_data` returns exactly it: the maximal run of
consecutive non-missing rows with the largest element count, the earliest
such run on ties. -/
theorem C4_contiguity_earliest_longest (data : List Obs) (r : List Obs)
    (hr : firstLongest (presentRuns data) = some r) :
    get_longest_contiguous_data data = .ok r := by
  classical
  set bl := blocks data with hbldef
  set pb := ((tagIdx 1 bl).filter (fun t => t.2.1)).map (fun t => (t.1, t.2.2))
    with hpbdef
  have hmap2 : pb.map (·.2) = presentRuns data := by
    rw [hpbdef, List.map_map]
    exact tagIdx_proj bl 1
  have hpbmem : ∀ p ∈ pb, ∃ t, t ∈ tagIdx 1 bl ∧ t.2.1 = true ∧ t.1 = p.1 ∧ t.2.2 = p.2 := by
    intro p hp
    rw [hpbdef] at hp
    obtain ⟨t, htf, hte⟩ := List.mem_map.mp hp
    have hft := List.mem_filter.mp htf
    exact ⟨t, hft.1, hft.2, congrArg Prod.fst hte, congrArg Prod.snd hte⟩
  have hpw : pb.Pairwise (fun s t => s.1 < t.1) := by
    rw [hpbdef]
    exact ((tagIdx_pairwise bl 1).filter _).map _ (fun a b hab => hab)
  obtain ⟨full, hfulldef⟩ : ∃ l : List Nat,
      l = (pb.map fun p => List.replicate p.2.length p.1).flatten := ⟨_, rfl⟩
  have hcnt : ∀ p ∈ pb, full.count p.1 = p.2.length := by
    rw [hfulldef]; exact count_flatten_mem pb hpw
  have hpids : (((groupIds (data.map pres)).zip (data.map pres)).filter (·.2)).map (·.1)
      = full := by
    rw [hfulldef, presentIds_swap data (groupIds (data.map pres)),
      zip_groupIds_eq_tagBlocks data,
      presentIds_eq_flatten bl 1 (fun p hp => (blocks_mem_flag data p hp).1),
      hpbdef, List.map_map]
    exact congrArg List.flatten (List.map_congr_left fun t _ => rfl)
  -- the present runs are nonempty, so pb has a head
  rcases hpb : pb with _ | ⟨⟨g0, run0⟩, pbrest⟩
  · rw [hpb] at hmap2
    rw [← hmap2] at hr
    exact absurd hr (by simp [firstLongest])
  · have hmem0 : (g0, run0) ∈ pb := by rw [hpb]; exact List.mem_cons_self _ _
    obtain ⟨t0, ht0i, ht0b, ht0f, ht0s⟩ := hpbmem (g0, run0) hmem0
    have hrun0ne : run0 ≠ [] := by
      have := (blocks_mem_flag data t0.2 (tagIdx_mem_orig bl 1 t0 ht0i)).2
      rw [ht0s] at this
      exact this
    rcases hrun0 : run0 with _ | ⟨o0, rtl⟩
    · exact absurd hrun0 hrun0ne
    have hfull : full = g0 :: (List.replicate rtl.length g0
        ++ (pbrest.map fun p => List.replicate p.2.length p.1).flatten) := by
      rw [hfulldef, hpb, List.map_cons, List.flatten_cons, hrun0, List.length_cons,
        List.replicate_succ, List.cons_append]
    -- evaluate the idxmax step on this shape
    have hbl2 : bestLabel full
        = .ok (List.foldl (fun b h => if full.count h > full.count b then h else b) g0
            (List.replicate rtl.length g0
              ++ (pbrest.map fun p => List.replicate p.2.length p.1).flatten)) := by
      rw [hfull]
      rfl
    -- the fold over the replicated head ids keeps the head id
    have hstep1 : List.foldl
        (fun b h => if full.count h > full.count b then h else b) g0
        (List.replicate rtl.length g0) = g0 := by
      rw [foldl_best_replicate]
      by_cases h0 : rtl.length = 0
      · rw [if_pos h0]
      · rw [if_neg h0, if_neg (lt_irrefl _)]
    have hstep2 : List.foldl
        (fun b h => if full.count h > full.count b then h else b) g0
        (List.replicate run0.length g0) = g0 := by
      rw [foldl_best_replicate]
      by_cases h0 : run0.length = 0
      · rw [if_pos h0]
      · rw [if_neg h0, if_neg (lt_irrefl _)]
    have hflatsplit : (pb.map fun p => List.replicate p.2.length p.1).flatten
        = List.replicate run0.length g0
          ++ (pbrest.map fun p => List.replicate p.2.length p.1).flatten := by
      rw [hpb, List.map_cons, List.flatten_cons]
    have hfold := foldl_best_eq full pb (g0, run0) hcnt ((hcnt (g0, run0)) hmem0)
    simp only at hfold
    rw [hflatsplit, List.foldl_append, hstep2] at hfold
    -- identify the chosen pair and its run
    set chosen := List.foldl (fun b s => if s.2.length > b.2.length then s else b)
      (g0, run0) pb with hchdef
    have hchpb : chosen = List.foldl (fun b s => if s.2.length > b.2.length then s else b)
        (g0, run0) pbrest := by
      rw [hchdef, hpb, List.foldl_cons, if_neg (lt_irrefl _)]
    have hchosen_mem : chosen ∈ pb := by
      rw [hpb]
      rcases foldl_best_mem pbrest (g0, run0) with h | h
      · rw [hchpb, h]; exact List.mem_cons_self _ _
      · exact List.mem_cons_of_mem _ (hchpb ▸ h)
    have hchosen_snd : chosen.2 = r := by
      have hruns : presentRuns data = run0 :: pbrest.map (·.2) := by
        rw [← hmap2, hpb, List.map_cons]
      rw [hruns] at hr
      simp only [firstLongest] at hr
      injection hr with hr'
      rw [hchpb, foldl_best_snd, hr']
    obtain ⟨t1, ht1i, ht1b, ht1f, ht1s⟩ := hpbmem chosen hchosen_mem
    have ht1 : t1 = (chosen.1, true, chosen.2) := by
      obtain ⟨a, b, c⟩ := t1
      simp only at ht1b ht1f ht1s
      rw [ht1b, ht1f, ht1s]
    have hfilter := filter_tagBlocks_id bl 1 t1 ht1i
    rw [ht1] at hfilter
    simp only at hfilter
    -- assemble
    simp only [get_longest_contiguous_data]
    rw [hpids, hbl2, List.foldl_append, hstep1, hfold]
    simp only [Except.map]
    rw [zip_groupIds_eq_tagBlocks data, ← hbldef, hfilter, hchosen_snd]

lemma mem_blocks (l : List Obs) : ∀ o ∈ l, ∃ p ∈ blocks l, o ∈ p.2 := by
  induction l with
  | nil => intro o ho; exact absurd ho (by simp)
  | cons o l ih =>
    intro o' ho'
    rcases List.mem_cons.mp ho' with hh | ht
    · subst hh
      obtain ⟨r, rest, hbl⟩ := blocks_cons_head o' l
      exact ⟨(pres o', o' :: r), hbl ▸ List.mem_cons_self _ _, List.mem_cons_self _ _⟩
    · obtain ⟨p, hpmem, hop⟩ := ih o' ht
      rw [blocks_cons]
      rcases hbl : blocks l with _ | ⟨⟨b0, r0⟩, rest⟩
      · rw [hbl] at hpmem; exact absurd hpmem (by simp)
      · rw [hbl] at hpmem
        by_cases hpb : (pres o == b0) = true
        · simp only [blocksPush, hpb, if_true]
          rcases List.mem_cons.mp hpmem with h1 | h2
          · refine ⟨(b0, o :: r0), List.mem_cons_self _ _, ?_⟩
            have : o' ∈ r0 := by rw [h1] at hop; exact hop
            exact List.mem_cons_of_mem _ this
          · exact ⟨p, List.mem_cons_of_mem _ h2, hop⟩
        · simp only [blocksPush, hpb, Bool.false_eq_true, if_false]
          exact ⟨p, List.mem_cons_of_mem _ hpmem, hop⟩

/-- When some observation is present, the spec-side earliest-longest run
exists, so the hypothesis of the C4 theorem is realizable on exactly the
series the claim quantifies over. -/
lemma firstLongest_isSome_of_present (data : List Obs) (o : Obs) (ho : o ∈ data)
    (hp : pres o = true) : ∃ r, firstLongest (presentRuns data) = some r := by
  obtain ⟨p, hpmem, hop⟩ := mem_blocks data o ho
  have hflag : pres o = p.1 := (blocks_mem_flag data p hpmem).1 o hop
  have hmemf : p ∈ (blocks data).filter (·.1) :=
    List.mem_filter.mpr ⟨hpmem, by rw [← hflag]; exact hp⟩
  have : p.2 ∈ presentRuns data := List.mem_map_of_mem (·.2) hmemf
  rcases hruns : presentRuns data with _ | ⟨r0, rs⟩
  · rw [hruns] at this; exact absurd this (by simp)
  · exact ⟨_, rfl⟩

/-- Witness for C4 on the present/missing pattern `[P,P,M,P,P,P,M]` (one
observation per hour): the function returns the run of length 3 at
zero-indexed positions 3–5, not the first run of length 2. -/
theorem C4_contiguity_earliest_longest_witness :
    firstLongest (presentRuns
        [atHour 0 (some 1), atHour 1 (some 2), atHour 2 none, atHour 3 (some 3),
          atHour 4 (some 4), atHour 5 (some 5), atHour 6 none])
      = some [atHour 3 (some 3), atHour 4 (some 4), atHour 5 (some 5)]
    ∧ get_longest_contiguous_data
        [atHour 0 (some 1), atHour 1 (some 2), atHour 2 none, atHour 3 (some 3),
          atHour 4 (some 4), atHour 5 (some 5), atHour 6 none]
      = .ok [atHour 3 (some 3), atHour 4 (some 4), atHour 5 (some 5)] :=
  ⟨by rfl, C4_contiguity_earliest_longest _ _ (by rfl)⟩

end Tidal
